import Mathlib

/-!
A shallow embedding of the ELF emission core of e9patch (`e9elf.cpp`,
together with the on-disk record layout of `e9loader.h`), and theorems
checking its natural-language specification against the code.

Conventions of the embedding:
* C `size_t` values are `Nat`; C `intptr_t` / `off_t` values are `Int`.
* C truncating division on signed integers is `Int.tdiv`; unsigned-style
  modular reduction is `Int.emod` with an explicit power of two.
* Byte buffers are total functions `Nat → Nat` plus an explicit logical
  length; `memcpy` / `memcmp` are modelled pointwise.
* Fatal `error(...)` calls become `Except.error` with an error class
  matching the message; `assert(...)` failures become `internalAssert`.
* Process-wide options (`option_loader_base`, ...) are threaded as
  explicit arguments; the `stat_*` counters and `debug`/`warning` calls
  carry no semantic content and are omitted.
-/

namespace E9

/-- Page size used throughout e9patch (4096 bytes). -/
def PAGE_SIZE : Nat := 4096

/-- Smallest value of a C `int32_t`. -/
def INT32_MIN : Int := -2147483648

/-- Largest value of a C `int32_t`. -/
def INT32_MAX : Int := 2147483647

/-- Largest value of a C `uint32_t`. -/
def UINT32_MAX : Nat := 4294967295

/-- Smallest value of a C `intptr_t` on x86-64. -/
def INTPTR_MIN : Int := -9223372036854775808

/-- Binary rewriting modes relevant to the ELF emitter: `MODE_ELF_EXE`,
`MODE_ELF_DSO`, and any other member of the `Mode` enum (which the
emitter rejects with "invalid mode"). -/
inductive Mode where
  | elf_exe
  | elf_dso
  | other
deriving DecidableEq, Repr

/-- The classes of fatal `error(...)` calls reachable from the emission
core, one per distinct error message. -/
inductive E9Error where
  | addrUnderflow
  | addrOverflow
  | sizeOverflow
  | offsetOverflow
  | loaderBaseTooLow
  | missingDynamic
  | missingInit
  | noInjectionSlot
  | malformedInput
  | reserveFailed
  | invalidMode
  | internalAssert
deriving DecidableEq, Repr

/-- The on-disk mapping record, `struct e9_map_s` of `e9loader.h`:
an `int32_t addr`, a `uint32_t offset`, and a third 32-bit word holding a
20-bit `size` bitfield, 8 reserved bits, and the four flag bits. -/
structure e9_map_s where
  addr : Int
  offset : Nat
  size : Nat
  r : Bool
  w : Bool
  x : Bool
  abs : Bool
deriving DecidableEq, Repr

/-- The value of `sizeof(struct e9_map_s)`: three 32-bit words. -/
def sizeof_e9_map_s : Nat := 12

/-- Modelled from the spec: `IS_ABSOLUTE` and `BASE_ADDRESS` are bit-level
macros of `e9patch.h`, which is not among the sources here; the spec calls
them an implementation-defined predicate and accessor separating absolute
mappings from base-relative ones.  They are kept as explicit parameters of
the emitter. -/
structure AbsOracle where
  isAbsolute : Int → Bool
  baseAddress : Int → Int

/-- A sample instantiation of the absolute-address oracle, used for
concrete evaluations: negative addresses are absolute and the relative
base of a base-relative address is the address itself. -/
def sampleOracle : AbsOracle :=
  { isAbsolute := fun a => decide (a < 0)
    baseAddress := fun a => a }

/-- Shallow embedding of `emitLoaderMap` (`e9elf.cpp`, lines 253-286).
Returns the number of bytes written, the record stored at `dst`, and the
updated `*ub` (or the untouched argument when `ub` is null / the address
is absolute).  The divisions by `PAGE_SIZE` are C truncating divisions;
the record's `size` field receives `(uint16_t)len` — the value reduced
modulo `2^16` — and its `offset` field receives `(uint32_t)offset`. -/
def emitLoaderMap (O : AbsOracle) (addr0 : Int) (len0 : Nat) (offset0 : Int)
    (r w x : Bool) (ub : Option Int) :
    Except E9Error (Nat × e9_map_s × Option Int) :=
  let abs := O.isAbsolute addr0
  let ub1 : Option Int :=
    match ub with
    | some u => if !abs then some (max u addr0) else some u
    | none => none
  let addr1 := O.baseAddress addr0
  let addr := Int.tdiv addr1 (PAGE_SIZE : Int)
  let len := len0 / PAGE_SIZE
  let offset := Int.tdiv offset0 (PAGE_SIZE : Int)
  if addr < INT32_MIN ∨ addr > INT32_MAX then
    .error (if addr < 0 then .addrUnderflow else .addrOverflow)
  else if len ≥ 2 ^ 21 then
    .error .sizeOverflow
  else if offset > (UINT32_MAX : Int) then
    .error .offsetOverflow
  else
    .ok (sizeof_e9_map_s,
      { addr := addr
        offset := (Int.emod offset (2 ^ 32)).toNat
        size := len % 2 ^ 16
        r := r
        w := w
        x := x
        abs := abs },
      ub1)

/-- A byte buffer: a total function from file offsets to byte values. The
logical length is carried separately by the emitter. -/
abbrev Buf := Nat → Nat

/-- The test `memcmp(a + off1, b + off2, len) == 0`, as a `Bool`. -/
def memEq (a b : Buf) (off1 off2 len : Nat) : Bool :=
  (List.range len).all (fun i => a (off1 + i) == b (off2 + i))

/-- The effect of `memcpy(m + dst, src_m + src, len)` on buffer `m`,
reading the source bytes from `src_m` (the pre-call state when source and
destination live in the same buffer, as `memcpy` requires the ranges to
be disjoint). -/
def memcpyFrom (m src_m : Buf) (dst src len : Nat) : Buf :=
  fun i => if dst ≤ i ∧ i < dst + len then src_m (src + (i - dst)) else m i

/-- The two fields of `struct Instr` that the refactor planner reads: the
virtual address and the file offset of the patched instruction. -/
structure Instr where
  addr : Int
  offset : Int
deriving DecidableEq, Repr

/-- `Is.lower_bound(offset)` over the instruction index: the earliest
instruction whose file offset is at least `offset`; the list is the
`std::map` contents in ascending key (= offset) order. -/
def lowerBound (Is : List Instr) (offset : Int) : Option Instr :=
  Is.find? (fun I => decide (offset ≤ I.offset))

/-- The `struct Refactor` of `e9elf.cpp` (lines 46-65): a mapping
address, a mapping size, the original file offset and (once assigned) the
patched file offset. -/
structure Refactor where
  addr : Int
  size : Nat
  originalOffset : Int
  patchedOffset : Int
deriving DecidableEq, Repr

/-- The cluster-accumulation state of step #1 of `emitRefactoredPatch`:
`curr_addr`, `curr_offset`, `curr_size`, and the refactors flushed so
far. -/
structure ClusterState where
  currAddr : Int
  currOffset : Int
  currSize : Nat
  refactors : List Refactor
deriving DecidableEq, Repr

/-- The initial cluster state (`curr_addr = INTPTR_MIN`,
`curr_offset = -1`, `curr_size = 0`). -/
def initialCluster : ClusterState := ⟨INTPTR_MIN, -1, 0, []⟩

/-- One iteration of the clustering conditional of `emitRefactoredPatch`
(lines 216-229) for a differing page, given the page-aligned address and
offset derived from the covering instruction.  In the merge branch the C
code adds `(page_addr + PAGE_SIZE) - (curr_addr + curr_size)` to the
`size_t` accumulator `curr_size`; modulo `2^64` that sum is exactly
`page_addr + PAGE_SIZE - curr_addr`, which is non-negative in this branch
since the guard ensures `curr_addr ≤ page_addr`. -/
def clusterStep (mapping_size : Nat) (st : ClusterState)
    (page_addr page_offset : Int) : ClusterState :=
  if st.currAddr < 0 ∨ page_addr < st.currAddr ∨
      st.currAddr + st.currSize + mapping_size < page_addr then
    { currAddr := page_addr
      currOffset := page_offset
      currSize := PAGE_SIZE
      refactors := st.refactors ++
        (if st.currAddr ≥ 0 then
            [⟨st.currAddr, st.currSize, st.currOffset, 0⟩]
          else []) }
  else
    { st with currSize := (page_addr + (PAGE_SIZE : Int) - st.currAddr).toNat }

/-- The body of the page-scanning loop of `emitRefactoredPatch` (lines
205-230): pages equal to the original are skipped; otherwise the covering
instruction is located via `lower_bound` and the page joins the current
cluster.  The two `assert`s of the loop are modelled as `internalAssert`
errors. -/
def refactorScanStep (original data : Buf) (mapping_size : Nat)
    (Is : List Instr) (st : ClusterState) (offset : Nat) :
    Except E9Error ClusterState :=
  if memEq original data offset offset PAGE_SIZE then
    .ok st
  else
    match lowerBound Is offset with
    | none => .error .internalAssert
    | some I =>
      let page_addr := I.addr - Int.emod I.addr (PAGE_SIZE : Int)
      let page_offset := I.offset - Int.emod I.offset (PAGE_SIZE : Int)
      if page_offset ≠ (offset : Int) then .error .internalAssert
      else .ok (clusterStep mapping_size st page_addr page_offset)

/-- Step #1 of `emitRefactoredPatch` (lines 201-235): scan the pages of
the patched buffer at `PAGE_SIZE` stride, cluster the differing pages,
and flush the trailing cluster. -/
def findRefactors (original data : Buf) (size mapping_size : Nat)
    (Is : List Instr) : Except E9Error (List Refactor) := do
  let st ← (List.range (size / PAGE_SIZE)).foldlM
    (fun st k =>
      refactorScanStep original data mapping_size Is st (k * PAGE_SIZE))
    initialCluster
  if st.currAddr ≥ 0 then
    return st.refactors ++ [⟨st.currAddr, st.currSize, st.currOffset, 0⟩]
  else
    return st.refactors

/-- Step #2 of `emitRefactoredPatch` (lines 237-245): for each refactor in
order, record the current logical size as its patched offset, append a
copy of its patched bytes at the end of the buffer, and restore the
original bytes over its original range.  Returns the updated buffer, the
new size, and the refactors with patched offsets filled in. -/
def writeRefactors (original : Buf) :
    Buf → Nat → List Refactor → Buf × Nat × List Refactor
  | data, size, [] => (data, size, [])
  | data, size, r :: rs =>
    let r' := { r with patchedOffset := (size : Int) }
    let data1 := memcpyFrom data data size r.originalOffset.toNat r.size
    let data2 := memcpyFrom data1 original r.originalOffset.toNat
      r.originalOffset.toNat r.size
    let rest := writeRefactors original data2 (size + r.size) rs
    (rest.1, rest.2.1, r' :: rest.2.2)

/-- Shallow embedding of `emitRefactoredPatch` (lines 192-248). Returns
the updated buffer, the refactor set, and the number of bytes the file
grew by (the C return value `size - size_0`). -/
def emitRefactoredPatch (loader_static : Bool) (original data : Buf)
    (size mapping_size : Nat) (Is : List Instr) :
    Except E9Error (Buf × List Refactor × Nat) :=
  if loader_static then .ok (data, [], 0)
  else if size % PAGE_SIZE ≠ 0 then .error .internalAssert
  else do
    let rs ← findRefactors original data size mapping_size Is
    let out := writeRefactors original data size rs
    return (out.1, out.2.2, out.2.1 - size)

/-- The mmap protection bit `PROT_READ`. -/
def PROT_READ : Nat := 1

/-- The mmap protection bit `PROT_WRITE`. -/
def PROT_WRITE : Nat := 2

/-- The mmap protection bit `PROT_EXEC`. -/
def PROT_EXEC : Nat := 4

/-- The fields of a `Mapping` object (`e9mapping.h`) read by the
emitter: virtual base, byte size, file offset, protection bits, and the
preload flag.  A full mapping is a chain of such nodes. -/
structure MNode where
  base : Int
  msize : Nat
  moffset : Int
  prot : Nat
  preload : Bool
deriving DecidableEq, Repr

/-- A mapping together with its `merged` chain, head first; the C code
walks `for (; mapping != nullptr; mapping = mapping->merged)`. -/
abbrev Chain := List MNode

/-- The state threaded through the mapping-array emission loops: the file
cursor `size`, the maximum non-absolute address `ub`, the records written
so far, and the per-array record count `config->num_maps[i]`. -/
structure MapPassSt where
  size : Nat
  ub : Int
  recs : List e9_map_s
  num : Nat
deriving DecidableEq, Repr

/-- The inner bounds loop of the mapping-array emission (lines 358-373):
one `emitLoaderMap` call per dense sub-range `(lb, ub)`, at virtual base
`node.base + lb`, length `ub - lb`, and file offset `offset_0 + lb`,
where `offset_0` is the offset field of the chain head. -/
def emitBounds (O : AbsOracle) (offset_0 : Int) (n : MNode) :
    List (Int × Int) → MapPassSt → Except E9Error MapPassSt
  | [], st => .ok st
  | b :: bs, st =>
    let base := n.base + b.1
    let len := (b.2 - b.1).toNat
    let offset := offset_0 + b.1
    let r := (n.prot &&& PROT_READ) != 0
    let w := (n.prot &&& PROT_WRITE) != 0
    let x := (n.prot &&& PROT_EXEC) != 0
    match emitLoaderMap O base len offset r w x (some st.ub) with
    | .error e => .error e
    | .ok (sz, rec, ub1) =>
      emitBounds O offset_0 n bs
        ⟨st.size + sz, ub1.getD st.ub, st.recs ++ [rec], st.num + 1⟩

/-- The chain walk of the mapping-array emission (lines 348-374): the
head's offset is captured as `offset_0` before the walk, every node whose
preload flag matches the current pass contributes its virtual-bounds
sub-ranges, and the bounds of each node come from the `getVirtualBounds`
oracle `gvb`. -/
def emitChainMaps (O : AbsOracle) (gvb : MNode → List (Int × Int))
    (preload : Bool) (chain : Chain) (st : MapPassSt) :
    Except E9Error MapPassSt :=
  match chain with
  | [] => .ok st
  | head :: _ =>
    chain.foldlM
      (fun st n =>
        if n.preload != preload then .ok st
        else emitBounds O head.moffset n (gvb n) st)
      st

/-- One pass (`i = 0` or `i = 1`) of the mapping-array emission over the
whole mapping set (lines 344-375). -/
def emitMapPass (O : AbsOracle) (gvb : MNode → List (Int × Int))
    (preload : Bool) (mappings : List Chain) (st : MapPassSt) :
    Except E9Error MapPassSt :=
  mappings.foldlM (fun st c => emitChainMaps O gvb preload c st) st

/-- The on-disk `struct e9_config_s` of `e9loader.h`, with the two
two-element arrays flattened into separate fields.  All fields start
zeroed (the grown buffer region is zero-filled). -/
structure e9_config_s where
  magic : List Nat
  flags : Nat
  size : Nat
  base : Int
  entry : Int
  dynamic : Int
  mmap : Int
  num_maps0 : Nat
  num_maps1 : Nat
  maps0 : Nat
  maps1 : Nat
  num_inits : Nat
  inits : Nat
deriving DecidableEq, Repr

/-- The all-zero initial contents of the config record. -/
def zeroConfig : e9_config_s :=
  ⟨[0, 0, 0, 0, 0, 0, 0, 0], 0, 0, 0, 0, 0, 0, 0, 0, 0, 0, 0, 0⟩

/-- The bytes of the magic string "E9PATCH" with its trailing NUL. -/
def e9Magic : List Nat := [0x45, 0x39, 0x50, 0x41, 0x54, 0x43, 0x48, 0]

/-- The flag bit `E9_FLAG_EXE` of `e9loader.h`. -/
def E9_FLAG_EXE : Nat := 1

/-- The value of `sizeof(struct e9_config_s)`: 8 magic bytes, two
`uint32_t`, four `intptr_t`, and six further `uint32_t`. -/
def sizeof_e9_config_s : Nat := 72

/-- Modelled from the spec: `struct e9_config_elf_s` is declared in
`e9elf.h`, which is not among the sources here; the spec describes it as
the mode-specific extension record holding at minimum the `dynamic`
pointer, so it is modelled as one `intptr_t`. -/
def sizeof_e9_config_elf_s : Nat := 8

/-- Rounding a cursor up to the next `PAGE_SIZE` boundary, written as in
the C code: `size % PAGE_SIZE == 0 ? size : size + PAGE_SIZE - size %
PAGE_SIZE`. -/
def roundUpPage (n : Nat) : Nat :=
  if n % PAGE_SIZE = 0 then n else n + PAGE_SIZE - n % PAGE_SIZE

/-- The section of `emitElf` that emits the two mapping arrays, checks
the `ub` guard, and appends the refactor mappings (lines 338-395).
Returns the new cursor, the updated config record, the trampoline-array
records, and the refactor records.  The `config->maps[i]` offsets and
record counts are filled in with the values the loop assigns. -/
def emitMapsSection (O : AbsOracle) (gvb : MNode → List (Int × Int))
    (loader_base : Int) (config_offset : Nat) (mappings : List Chain)
    (refactors : List Refactor) (size : Nat) (config : e9_config_s) :
    Except E9Error (Nat × e9_config_s × List e9_map_s × List e9_map_s) := do
  let st1 ← emitMapPass O gvb true mappings ⟨size, INTPTR_MIN, [], 0⟩
  let st2 ← emitMapPass O gvb false mappings ⟨st1.size, st1.ub, [], 0⟩
  if st2.ub > loader_base then
    .error .loaderBaseTooLow
  else do
    let out ← refactors.foldlM
      (fun (acc : Nat × List e9_map_s) r =>
        match emitLoaderMap O r.addr r.size r.patchedOffset
            true false true none with
        | .error e => .error e
        | .ok (sz, rec, _) => .ok (acc.1 + sz, acc.2 ++ [rec]))
      (st2.size, [])
    return (out.1,
      { config with
          maps0 := size - config_offset
          num_maps0 := st1.num
          maps1 := st1.size - config_offset
          num_maps1 := st2.num + refactors.length },
      st1.recs ++ st2.recs, out.2)

/-- Interpretation of the low 32 bits of a `size_t` value as a C
`int32_t` (the cast `(int32_t)n`). -/
def toInt32 (n : Nat) : Int :=
  let m : Nat := n % 2 ^ 32
  if m < 2 ^ 31 then (m : Int) else (m : Int) - 2 ^ 32

/-- The four little-endian bytes of the two's-complement `int32_t`
value `v`, as written by `memcpy(data + size, &config_rel32, 4)`. -/
def le32 (v : Int) : List Nat :=
  let u := (Int.emod v (2 ^ 32)).toNat
  [u % 2 ^ 8, u / 2 ^ 8 % 2 ^ 8, u / 2 ^ 16 % 2 ^ 8, u / 2 ^ 24 % 2 ^ 8]

/-- The mode-dependent shim prologue (lines 399-417): `mov (%rsp), %rdi;
lea 0x8(%rsp), %rsi` in executable mode, `xor %edi, %edi; xor %esi,
%esi` in DSO mode, and a fatal "invalid mode" error otherwise. -/
def shimPrologue : Mode → Option (List Nat)
  | .elf_exe => some [0x48, 0x8B, 0x3C, 0x24, 0x48, 0x8D, 0x74, 0x24, 0x08]
  | .elf_dso => some [0x31, 0xFF, 0x31, 0xF6]
  | .other => none

/-- The entry-shim emission (lines 397-425): the optional `int3` trap
byte, the mode prologue, the three opcode bytes `48 8D 15` of the
rip-relative `lea` into `%rdx`, the little-endian `rel32` displacement
`-(int32_t)((size + 4) - config_offset)` taken at the cursor after the
opcode bytes, then the loader blob verbatim.  `s0` is the cursor at the
start of the shim; returns the bytes and the cursor afterwards. -/
def emitShim (mode : Mode) (trap : Bool) (s0 config_offset : Nat)
    (blob : List Nat) : Except E9Error (List Nat × Nat) :=
  match shimPrologue mode with
  | none => .error .invalidMode
  | some pro =>
    let trapBytes := if trap then [0xCC] else []
    let s := s0 + trapBytes.length + pro.length + 3
    let config_rel32 : Int := -(toInt32 ((s + 4) - config_offset))
    let bytes := trapBytes ++ pro ++ [0x48, 0x8D, 0x15] ++
      le32 config_rel32 ++ blob
    .ok (bytes, s0 + bytes.length)

/-- The ELF file type `ET_EXEC`. -/
def ET_EXEC : Nat := 2

/-- The ELF file type `ET_DYN`. -/
def ET_DYN : Nat := 3

/-- The dynamic-entry tag `DT_NULL`. -/
def DT_NULL : Int := 0

/-- The dynamic-entry tag `DT_INIT`. -/
def DT_INIT : Int := 12

/-- The program-header type `PT_LOAD`. -/
def PT_LOAD : Nat := 1

/-- The program-header type `PT_NOTE`. -/
def PT_NOTE : Nat := 4

/-- The program-header type `PT_GNU_STACK`. -/
def PT_GNU_STACK : Nat := 0x6474e551

/-- The program-header type `PT_GNU_RELRO`. -/
def PT_GNU_RELRO : Nat := 0x6474e552

/-- The program-header flag `PF_X`. -/
def PF_X : Nat := 1

/-- The program-header flag `PF_R`. -/
def PF_R : Nat := 4

/-- The e_type classification and reservation policy of `parseElf`
(lines 112-139).  `reserveLow` and `reserveNeg` are the outcomes of the
two `reserve` oracle calls (the low 64 KiB range for `ET_EXEC`, the
negative half for non-PIEs).  Returns the `(pic, pie)` classification. -/
def classifyElfType (etype : Nat) (mode : Mode)
    (reserveLow reserveNeg : Bool) : Except E9Error (Bool × Bool) := do
  let pp ←
    if etype = ET_EXEC then
      if mode = .elf_dso then .error .malformedInput
      else if !reserveLow then .error .reserveFailed
      else .ok ((false : Bool), (false : Bool))
    else if etype = ET_DYN then
      .ok (true, decide (mode = .elf_exe))
    else .error .malformedInput
  if !pp.2 then
    if !reserveNeg then .error .reserveFailed
    else .ok pp
  else .ok pp

/-- The fields of an `Elf64_Phdr`. -/
structure Elf64_Phdr where
  p_type : Nat
  p_flags : Nat
  p_offset : Nat
  p_vaddr : Int
  p_paddr : Int
  p_filesz : Nat
  p_memsz : Nat
  p_align : Nat
deriving DecidableEq, Repr

/-- The parsed ELF pointers the emitter reads: the entry point, the
`PT_DYNAMIC` segment (its `p_vaddr` and the dynamic entries, each a
`(d_tag, d_un.d_ptr)` pair, as read from the file up to
`p_memsz / sizeof(Elf64_Dyn)` entries), and the three candidate headers
for repurposing. -/
structure ElfInfo where
  e_entry : Int
  dynamicSeg : Option (Int × List (Int × Int))
  phdr_note : Option Elf64_Phdr
  phdr_gnu_relro : Option Elf64_Phdr
  phdr_gnu_stack : Option Elf64_Phdr
deriving DecidableEq, Repr

/-- The `DT_INIT` replacement loop of `emitElf` (lines 450-463): scan the
dynamic entries in order, stop at the first `DT_NULL`, and at the first
`DT_INIT` save the old pointer and overwrite it with `entry`.  Returns
the saved pointer and the updated entries, or `none` when no `DT_INIT`
is found. -/
def replaceDTInit (dyns : List (Int × Int)) (entry : Int) :
    Option (Int × List (Int × Int)) :=
  match dyns with
  | [] => none
  | (tag, ptr) :: rest =>
    if tag = DT_NULL then none
    else if tag = DT_INIT then some (ptr, (tag, entry) :: rest)
    else
      match replaceDTInit rest entry with
      | none => none
      | some (e, rest') => some (e, (tag, ptr) :: rest')

/-- The DSO branch of the entry rewiring (lines 445-467): the
`PT_DYNAMIC` header is required, and the first `DT_INIT` before the first
`DT_NULL` is replaced by `entry`.  Returns the saved original pointer
(stored into `config->entry`) and the updated dynamic entries. -/
def rewireDSO (dynamicSeg : Option (Int × List (Int × Int)))
    (entry : Int) : Except E9Error (Int × List (Int × Int)) :=
  match dynamicSeg with
  | none => .error .missingDynamic
  | some (_, dyns) =>
    match replaceDTInit dyns entry with
    | none => .error .missingInit
    | some (old, dyns') => .ok (old, dyns')

/-- The PHDR selection of `emitElf` (lines 477-493): an explicit
`option_loader_phdr` choice picks that header; any other value falls to
the default preference `PT_NOTE`, then `PT_GNU_RELRO`, then
`PT_GNU_STACK`. -/
def selectPhdr (choice : Nat) (note relro stack : Option Elf64_Phdr) :
    Option Elf64_Phdr :=
  if choice = PT_NOTE then note
  else if choice = PT_GNU_RELRO then relro
  else if choice = PT_GNU_STACK then stack
  else
    match note with
    | some p => some p
    | none =>
      match relro with
      | some p => some p
      | none => stack

/-- The overwrite of the selected program header (lines 497-504). -/
def repurposePhdr (config_offset : Nat) (loader_base : Int)
    (config_size : Nat) (p : Elf64_Phdr) : Elf64_Phdr :=
  { p with
      p_type := PT_LOAD
      p_flags := PF_X ||| PF_R
      p_offset := config_offset
      p_vaddr := loader_base
      p_paddr := 0
      p_filesz := config_size
      p_memsz := config_size
      p_align := PAGE_SIZE }

/-- Step (6) of `emitElf` (lines 476-504): select a header, fail with the
"failed to replace PHDR entry" error when it is absent, and overwrite
it. -/
def phdrStep (choice : Nat) (info : ElfInfo) (config_offset : Nat)
    (loader_base : Int) (config_size : Nat) : Except E9Error Elf64_Phdr :=
  match selectPhdr choice info.phdr_note info.phdr_gnu_relro
      info.phdr_gnu_stack with
  | none => .error .noInjectionSlot
  | some p => .ok (repurposePhdr config_offset loader_base config_size p)

/-- The options of the emitter that are process-wide globals in the
source. -/
structure Options where
  loader_static : Bool
  loader_base : Int
  trap_entry : Bool
  loader_phdr : Nat
deriving DecidableEq, Repr

/-- The observable outcome of `emitElf`: the returned final size, the
config-region offset, the config record, the emitted trampoline and
refactor map records, the refactor set, the rewired entry value, the
repurposed program header, the (possibly rewired) `e_entry`, and the
(possibly rewired) dynamic entries. -/
structure EmitResult where
  finalSize : Nat
  config_offset : Nat
  config : e9_config_s
  trampolineRecs : List e9_map_s
  refactorRecs : List e9_map_s
  refactors : List Refactor
  entry : Int
  phdr : Elf64_Phdr
  e_entry : Int
  dyns : Option (List (Int × Int))
  dynamicAddr : Int
deriving DecidableEq, Repr

/-- Shallow embedding of `emitElf` (lines 291-512), at the granularity of
the cursor, the emitted records, and the config fields; the byte images
written by `flattenMapping`, the config stores, and the shim are tracked
through their sizes (the shim and refactor bytes themselves are modelled
by `emitShim` and `emitRefactoredPatch`).  `gvb` is the
`getVirtualBounds` oracle and `blob` is `e9loader_elf_bin`. -/
def emitElf (O : AbsOracle) (gvb : MNode → List (Int × Int))
    (opt : Options) (mode : Mode) (original data0 : Buf)
    (size0 mapping_size : Nat) (Is : List Instr) (mappings : List Chain)
    (inits : List Int) (mmapHint : Int) (info : ElfInfo)
    (blob : List Nat) : Except E9Error EmitResult := do
  -- Step (1): round up to the nearest page boundary.
  let size := roundUpPage size0
  -- Step (2): refactor the patching.
  let (_, refactors, growth) ←
    emitRefactoredPatch opt.loader_static original data0 size mapping_size Is
  let size := size + growth
  -- Step (3): emit all mappings (B->config := option_loader_base; each
  -- mapping's offset is set to the cursor and the cursor advances by its
  -- size; the flattened bytes are not tracked).
  let (mappings, size) := mappings.foldl
    (fun (acc : List Chain × Nat) chain =>
      match chain with
      | [] => (acc.1 ++ [[]], acc.2)
      | h :: t =>
        (acc.1 ++ [{ h with moffset := (acc.2 : Int) } :: t],
          acc.2 + h.msize))
    ([], size)
  -- Step (4): emit the loader.
  let size := roundUpPage size
  let config_offset := size
  let size := size + sizeof_e9_config_s
  let size := size + sizeof_e9_config_elf_s
  let config := { zeroConfig with
    magic := e9Magic
    base := opt.loader_base
    mmap := if mmapHint ≠ INTPTR_MIN then mmapHint else 0 }
  let config := { config with inits := size - config_offset }
  let (size, config) := inits.foldl
    (fun (acc : Nat × e9_config_s) _ =>
      (acc.1 + 8, { acc.2 with num_inits := acc.2.num_inits + 1 }))
    (size, config)
  let (size, config, tramps, refrecs) ←
    emitMapsSection O gvb opt.loader_base config_offset mappings refactors
      size config
  let entry := opt.loader_base + ((size : Int) - (config_offset : Int))
  let (_, size) ← emitShim mode opt.trap_entry size config_offset blob
  let config_size := size - config_offset
  let config := { config with size := roundUpPage config_size }
  -- Step (5): modify the entry address.
  let dynamic :=
    match info.dynamicSeg with
    | some (vaddr, _) => vaddr
    | none => 0
  let (config, e_entry, dyns) ←
    match mode with
    | .elf_exe =>
      .ok ({ config with
              entry := info.e_entry
              flags := config.flags ||| E9_FLAG_EXE },
        entry, info.dynamicSeg.map (fun s => s.2))
    | .elf_dso => do
      let (old, dyns') ← rewireDSO info.dynamicSeg entry
      .ok ({ config with entry := old }, info.e_entry, some dyns')
    | .other => .error .invalidMode
  -- Step (6): modify the PHDR to load the loader.
  let phdr ← phdrStep opt.loader_phdr info config_offset opt.loader_base
    config_size
  return { finalSize := size
           config_offset := config_offset
           config := config
           trampolineRecs := tramps
           refactorRecs := refrecs
           refactors := refactors
           entry := entry
           phdr := phdr
           e_entry := e_entry
           dyns := dyns
           dynamicAddr := dynamic }

/-- The sample `getVirtualBounds` oracle used by the C10 evaluation: one
dense sub-range covering the first page. -/
def gvbC10 : MNode → List (Int × Int) := fun _ => [(0, 4096)]

/-- The C10 chain head: base 4096, one page, file offset 0. -/
def hC10 : MNode := ⟨4096, 4096, 0, 5, true⟩

/-- The C10 merged chain node: base 16384, one page, and a decoy own
offset field 8192 that must not be consulted. -/
def nC10 : MNode := ⟨16384, 4096, 8192, 5, true⟩

/-- An all-zero byte buffer. -/
def zbuf : Buf := fun _ => 0

/-- A patched buffer whose pages at offsets 0 and 12288 differ from the
all-zero original (dirty pages at `A` and `A + mapping_size + PAGE_SIZE`
for `A = 0`, `mapping_size = 8192`). -/
def dataS1 : Buf := fun i => if i = 0 ∨ i = 12288 then 1 else 0

/-- The instruction index of the `dataS1` scenario: one instruction per
dirty page, at virtual address = file offset. -/
def IsS1 : List Instr := [⟨0, 0⟩, ⟨12288, 12288⟩]

/-- A patched buffer whose pages at offsets 0 and 4096 differ from the
all-zero original (dirty pages at `A` and `A + mapping_size - PAGE_SIZE`
for `A = 0`, `mapping_size = 8192`). -/
def dataS2 : Buf := fun i => if i = 0 ∨ i = 4096 then 1 else 0

/-- The instruction index of the `dataS2` scenario. -/
def IsS2 : List Instr := [⟨0, 0⟩, ⟨4096, 4096⟩]

/-- A patched buffer with a single dirty byte in its only page. -/
def dataC2 : Buf := fun i => if i = 0 then 1 else 0

/-- The instruction index of the C2 run: the dirty page at offset 0 is
patched by an instruction at virtual address `0x800000`, above the
loader base option `0x400000`. -/
def IsC2 : List Instr := [⟨0x800000, 0⟩]

/-- Options for the C2 run: runtime refactoring on, loader base
`0x400000`, no trap, default PHDR choice. -/
def optC2 : Options := ⟨false, 0x400000, false, 0⟩

/-- The result of the C2 run: the emission succeeds, and its postload
array carries one refactor record at page-divided address 2048
(virtual base `0x800000`), non-absolute and above the loader base. -/
def resC2 : EmitResult :=
  { finalSize := 8301
    config_offset := 8192
    config := { magic := e9Magic, flags := 1, size := 4096,
                base := 0x400000, entry := 0x1000, dynamic := 0, mmap := 0,
                num_maps0 := 0, num_maps1 := 1, maps0 := 80, maps1 := 80,
                num_inits := 0, inits := 80 }
    trampolineRecs := []
    refactorRecs := [⟨2048, 1, 1, true, false, true, false⟩]
    refactors := [⟨8388608, 4096, 0, 4096⟩]
    entry := 0x400000 + 92
    phdr := ⟨PT_LOAD, PF_X ||| PF_R, 8192, 0x400000, 0, 109, 109, 4096⟩
    e_entry := 0x400000 + 92
    dyns := none
    dynamicAddr := 0 }

/-- The single mapping chain of the C2 witness: one preload node at base
`0x300000`. -/
def chainW : Chain := [⟨0x300000, 4096, 0, 5, true⟩]

/-- The mapping-section result of the C2 witness run: cursor 8284, the
updated config counts and offsets, one trampoline record, no refactor
records. -/
def outW : Nat × e9_config_s × List e9_map_s × List e9_map_s :=
  (8284, ⟨[0, 0, 0, 0, 0, 0, 0, 0], 0, 0, 0, 0, 0, 0, 1, 0, 80, 92, 0, 0⟩,
    [⟨768, 0, 1, true, false, true, false⟩], [])

/-- A small concrete original buffer for the C4 witness. -/
def origW4 : Buf := fun _ => 5

/-- A small concrete patched buffer for the C4 witness. -/
def dataW4 : Buf := fun i => 10 + i

/-- Two one-byte refactors over a two-byte file, ordered and disjoint. -/
def rsW4 : List Refactor := [⟨0, 1, 0, 0⟩, ⟨11, 1, 1, 0⟩]

/-- Options for a static-loader run: no runtime patching, loader base
`0x400000`, no entry trap, default PHDR choice. -/
def optStatic : Options := ⟨true, 0x400000, false, 0⟩

/-- ELF info of a plain executable with a `PT_NOTE` header and no
`PT_DYNAMIC`. -/
def infoExeSample : ElfInfo :=
  ⟨0x1000, none, some ⟨PT_NOTE, 4, 64, 0x200, 0, 16, 16, 8⟩, none, none⟩

/-- A concrete one-page static emission used to decide C9. -/
def runC9 : Except E9Error EmitResult :=
  emitElf sampleOracle (fun _ => []) optStatic .elf_exe zbuf zbuf 4096 4096
    [] [] [] INTPTR_MIN infoExeSample [7]

/-- The result of the C9 run: the config region starts at the page
boundary 4096 and holds 72 + 8 config bytes, the 16-byte entry shim and
the 1-byte blob, so the returned final size is 4193. -/
def resC9 : EmitResult :=
  { finalSize := 4193
    config_offset := 4096
    config := { magic := e9Magic, flags := 1, size := 4096,
                base := 0x400000, entry := 0x1000, dynamic := 0, mmap := 0,
                num_maps0 := 0, num_maps1 := 0, maps0 := 80, maps1 := 80,
                num_inits := 0, inits := 80 }
    trampolineRecs := []
    refactorRecs := []
    refactors := []
    entry := 0x400000 + 80
    phdr := ⟨PT_LOAD, PF_X ||| PF_R, 4096, 0x400000, 0, 97, 97, 4096⟩
    e_entry := 0x400000 + 80
    dyns := none
    dynamicAddr := 0 }

/-! Helper lemmas about the byte-buffer primitives and the monadic
plumbing, shared by the claim theorems below. -/

theorem memEq_true_of_eq {a b : Buf} {off1 off2 len : Nat}
    (h : ∀ i < len, a (off1 + i) = b (off2 + i)) :
    memEq a b off1 off2 len = true := by
  unfold memEq
  rw [List.all_eq_true]
  intro x hx
  simpa using h x (List.mem_range.mp hx)

theorem memEq_false_of_ne {a b : Buf} {off1 off2 len : Nat} (i : Nat)
    (hi : i < len) (hne : a (off1 + i) ≠ b (off2 + i)) :
    memEq a b off1 off2 len = false := by
  have h : ¬ memEq a b off1 off2 len = true := by
    unfold memEq
    rw [List.all_eq_true]
    intro hall
    exact hne (by simpa using hall i (List.mem_range.mpr hi))
  simpa using h

theorem roundUpPage_mod (n : Nat) : roundUpPage n % PAGE_SIZE = 0 := by
  unfold roundUpPage PAGE_SIZE
  split <;> omega

theorem le_roundUpPage (n : Nat) : n ≤ roundUpPage n := by
  unfold roundUpPage PAGE_SIZE
  split <;> omega

theorem exceptBind_ok {α β : Type} {x : Except E9Error α}
    {f : α → Except E9Error β} {b : β} (h : x >>= f = .ok b) :
    ∃ a, x = .ok a ∧ f a = .ok b := by
  cases x with
  | error e => simp [Bind.bind, Except.bind] at h
  | ok a => exact ⟨a, rfl, by simpa [Bind.bind, Except.bind] using h⟩

/-- C1.  The input that decides the claim: a mapping of `2^20` pages
(the smallest page count that no longer fits the 20-bit on-disk size
field).  The claim — and the 20-bit width of `e9_map_s.size` — require
an `OverflowError` here, but `emitLoaderMap` only rejects `len ≥ 2^21`
after page division and then stores `(uint16_t)len`, so the call
succeeds and the stored size field is `2^20 % 2^16 = 0`; a mapping of
`2^16` pages (which does fit 20 bits) is likewise silently clipped to a
stored size of `0` instead of `65536`. -/
theorem C1_emitLoaderMap_misses_20bit_overflow_and_clips :
    emitLoaderMap sampleOracle 0 (2 ^ 20 * PAGE_SIZE) 0 true false true
        none =
      .ok (12, ⟨0, 0, 0, true, false, true, false⟩, none) ∧
    emitLoaderMap sampleOracle 0 (2 ^ 16 * PAGE_SIZE) 0 true false true
        none =
      .ok (12, ⟨0, 0, 0, true, false, true, false⟩, none) ∧
    (2 ^ 20 * PAGE_SIZE) / PAGE_SIZE ≠ 0 ∧
    (2 ^ 16 * PAGE_SIZE) / PAGE_SIZE ≠ 0 := by
  refine ⟨by rfl, by rfl, by norm_num [PAGE_SIZE], by norm_num [PAGE_SIZE]⟩

/-- C3, counterexample.  An `ET_DYN` input in executable mode is not
rejected: `parseElf` classifies it as `pic = true, pie = true` and
succeeds (both `reserve` outcomes are irrelevant on this path), contrary
to the claim that the "vice versa" mismatch is also a `MalformedInput`
rejection. -/
theorem C3_counterexample_et_dyn_exe_accepted :
    classifyElfType ET_DYN .elf_exe true true = .ok (true, true) ∧
    classifyElfType ET_DYN .elf_exe false false = .ok (true, true) := by
  exact ⟨rfl, rfl⟩

/-- C3, amended.  `parseElf` rejects an `ET_EXEC` file with
`MalformedInput` when the requested mode is DSO, for any `reserve`
outcomes; an `ET_DYN` file in executable mode is accepted as a PIE
(`pic = true`, `pie = true`), not rejected; and an `ET_DYN` file in DSO
mode is classified `pic = true, pie = false` when the negative-half
reservation succeeds. -/
theorem C3_amended_type_mode_check (rl rn : Bool) :
    classifyElfType ET_EXEC .elf_dso rl rn = .error .malformedInput ∧
    classifyElfType ET_DYN .elf_exe rl rn = .ok (true, true) ∧
    classifyElfType ET_DYN .elf_dso rl true = .ok (true, false) := by
  exact ⟨rfl, rfl, rfl⟩

theorem toInt32_of_lt {n : Nat} (h : n < 2 ^ 31) : toInt32 n = (n : Int) := by
  unfold toInt32
  have h32 : n % 2 ^ 32 = n := Nat.mod_eq_of_lt (by omega)
  simp only [h32]
  rw [if_pos h]

/-- C8.  With the trap option off, the entry shim is exactly the
mode-dependent prologue (the given byte lists for executable and DSO
mode), then the `lea` opcode bytes `48 8D 15`, then the little-endian
`rel32` displacement `-((cursor + 4) - config_offset)` where `cursor` is
the position after the three opcode bytes, then the loader blob
verbatim; the displacement makes the rip-relative load target exactly
`config_offset`. -/
theorem C8_entry_shim_layout (mode : Mode) (pro : List Nat) (s0 co : Nat)
    (blob : List Nat) (hpro : shimPrologue mode = some pro)
    (hco : co ≤ s0) (hsmall : s0 + pro.length + 7 - co < 2 ^ 31) :
    emitShim mode false s0 co blob =
      .ok (pro ++ [0x48, 0x8D, 0x15] ++
          le32 ((co : Int) - (((s0 + pro.length + 3 : Nat) : Int) + 4)) ++
          blob,
        s0 + pro.length + 7 + blob.length) ∧
    ((s0 + pro.length + 3 : Nat) : Int) + 4 +
      ((co : Int) - (((s0 + pro.length + 3 : Nat) : Int) + 4)) = (co : Int) ∧
    (mode = .elf_exe →
      pro = [0x48, 0x8B, 0x3C, 0x24, 0x48, 0x8D, 0x74, 0x24, 0x08]) ∧
    (mode = .elf_dso → pro = [0x31, 0xFF, 0x31, 0xF6]) := by
  have hrel :
      -(toInt32 ((s0 + (0 : Nat) + pro.length + 3 + 4) - co)) =
        (co : Int) - (((s0 + pro.length + 3 : Nat) : Int) + 4) := by
    rw [toInt32_of_lt (by omega)]
    have hle : co ≤ s0 + 0 + pro.length + 3 + 4 := by omega
    push_cast [Nat.cast_sub hle]
    ring
  refine ⟨?_, by push_cast; ring, ?_, ?_⟩
  · unfold emitShim
    rw [hpro]
    simp only [Bool.false_eq_true, if_false, List.length_nil, List.nil_append]
    rw [hrel]
    simp only [List.length_append, le32, List.length_cons, List.length_nil]
    exact congrArg Except.ok (Prod.ext rfl (by omega))
  · intro hm
    subst hm
    exact (Option.some.inj hpro).symm
  · intro hm
    subst hm
    exact (Option.some.inj hpro).symm

/-- C8, witness: the shim of an executable-mode emission with the shim
starting at cursor 4176 and the config record at offset 4096. -/
theorem C8_entry_shim_layout_witness :
    emitShim .elf_exe false 4176 4096 [7] =
      .ok ([0x48, 0x8B, 0x3C, 0x24, 0x48, 0x8D, 0x74, 0x24, 0x08] ++
          [0x48, 0x8D, 0x15] ++
          le32 ((4096 : Int) - (((4176 + 9 + 3 : Nat) : Int) + 4)) ++ [7],
        4176 + 9 + 7 + 1) :=
  (C8_entry_shim_layout .elf_exe [0x48, 0x8B, 0x3C, 0x24, 0x48, 0x8D, 0x74,
      0x24, 0x08] 4176 4096 [7] rfl (by norm_num) (by norm_num)).1

theorem replaceDTInit_none_of_no_init {dyns : List (Int × Int)}
    {entry : Int}
    (h : ∀ e ∈ dyns.takeWhile (fun e => decide (e.1 ≠ DT_NULL)),
      e.1 ≠ DT_INIT) :
    replaceDTInit dyns entry = none := by
  induction dyns with
  | nil => rfl
  | cons hd tl ih =>
    unfold replaceDTInit
    by_cases h0 : hd.1 = DT_NULL
    · simp [h0]
    · have hmem : hd ∈ (hd :: tl).takeWhile
          (fun e => decide (e.1 ≠ DT_NULL)) := by
        rw [List.takeWhile_cons_of_pos (by simpa using h0)]
        exact List.mem_cons_self hd _
      have h12 : hd.1 ≠ DT_INIT := h hd hmem
      have htl : ∀ e ∈ tl.takeWhile (fun e => decide (e.1 ≠ DT_NULL)),
          e.1 ≠ DT_INIT := by
        intro e he
        refine h e ?_
        rw [List.takeWhile_cons_of_pos (by simpa using h0)]
        exact List.mem_cons_of_mem hd he
      obtain ⟨t, p⟩ := hd
      simp only at h0 h12
      rw [if_neg h0, if_neg h12, ih htl]

theorem replaceDTInit_first_init {l₁ l₂ : List (Int × Int)}
    {e : Int × Int} {entry : Int} (hinit : e.1 = DT_INIT)
    (hpre : ∀ e' ∈ l₁, e'.1 ≠ DT_INIT ∧ e'.1 ≠ DT_NULL) :
    replaceDTInit (l₁ ++ e :: l₂) entry =
      some (e.2, l₁ ++ (DT_INIT, entry) :: l₂) := by
  induction l₁ with
  | nil =>
    obtain ⟨t, p⟩ := e
    simp only at hinit
    subst hinit
    unfold replaceDTInit
    simp [DT_NULL, DT_INIT]
  | cons hd tl ih =>
    have hhd := hpre hd (List.mem_cons_self hd tl)
    have htl : ∀ e' ∈ tl, e'.1 ≠ DT_INIT ∧ e'.1 ≠ DT_NULL := by
      intro e' he'
      exact hpre e' (List.mem_cons_of_mem hd he')
    obtain ⟨t, p⟩ := hd
    simp only at hhd
    unfold replaceDTInit
    rw [List.cons_append]
    simp only
    rw [if_neg hhd.2, if_neg hhd.1, ih htl]
    rfl

/-- C6.  The DSO entry rewiring fails with the "missing PT_DYNAMIC"
error when the segment is absent; scans the dynamic entries stopping at
(and not including) the first `DT_NULL` and fails with the
"entry was not found" error when no `DT_INIT` occurs before it; and at
the first `DT_INIT` (no earlier entry being `DT_INIT` or `DT_NULL`)
saves the original pointer as the returned entry and overwrites exactly
that slot with the shim entry address, all other entries unchanged. -/
theorem C6_dso_entry_rewiring (seg : Option (Int × List (Int × Int)))
    (entry : Int) :
    (seg = none → rewireDSO seg entry = .error .missingDynamic) ∧
    (∀ va dyns, seg = some (va, dyns) →
      ((∀ e ∈ dyns.takeWhile (fun e => decide (e.1 ≠ DT_NULL)),
          e.1 ≠ DT_INIT) →
        rewireDSO seg entry = .error .missingInit) ∧
      (∀ l₁ e l₂, dyns = l₁ ++ e :: l₂ → e.1 = DT_INIT →
        (∀ e' ∈ l₁, e'.1 ≠ DT_INIT ∧ e'.1 ≠ DT_NULL) →
        rewireDSO seg entry = .ok (e.2, l₁ ++ (DT_INIT, entry) :: l₂))) := by
  constructor
  · intro h
    subst h
    rfl
  · intro va dyns hseg
    subst hseg
    constructor
    · intro hno
      have hr := @replaceDTInit_none_of_no_init dyns entry hno
      simp only [rewireDSO, hr]
    · intro l₁ e l₂ hsplit hinit hpre
      subst hsplit
      have hr := @replaceDTInit_first_init l₁ l₂ e entry hinit hpre
      simp only [rewireDSO, hr]

/-- C6, witness: a concrete dynamic segment whose second entry is the
first `DT_INIT` (before the terminating `DT_NULL`); the rewiring saves
its pointer `0x1200` and overwrites it with the shim entry `0x900`. -/
theorem C6_dso_entry_rewiring_witness :
    rewireDSO (some (0x100, [(5, 1), (12, 0x1200), (0, 0)])) 0x900 =
      .ok (0x1200, [(5, 1)] ++ (DT_INIT, 0x900) :: [(0, 0)]) :=
  ((C6_dso_entry_rewiring
      (some (0x100, [(5, 1), (12, 0x1200), (0, 0)])) 0x900).2
    0x100 [(5, 1), (12, 0x1200), (0, 0)] rfl).2
    [(5, 1)] (12, 0x1200) [(0, 0)] rfl rfl
    (by intro e' he'; simp at he'; subst he'; exact ⟨by decide, by decide⟩)

theorem emitElf_ok_inv {O : AbsOracle} {gvb : MNode → List (Int × Int)}
    {opt : Options} {mode : Mode} {original data0 : Buf}
    {size0 ms : Nat} {Is : List Instr} {mappings : List Chain}
    {inits : List Int} {mh : Int} {info : ElfInfo} {blob : List Nat}
    {res : EmitResult}
    (h : emitElf O gvb opt mode original data0 size0 ms Is mappings inits
      mh info blob = .ok res) :
    res.config_offset % PAGE_SIZE = 0 ∧
    res.config.size = roundUpPage (res.finalSize - res.config_offset) ∧
    res.config.size % PAGE_SIZE = 0 ∧
    phdrStep opt.loader_phdr info res.config_offset opt.loader_base
      (res.finalSize - res.config_offset) = .ok res.phdr := by
  unfold emitElf at h
  obtain ⟨⟨buf, refs, growth⟩, ha, h⟩ := exceptBind_ok h
  simp only [] at h
  obtain ⟨⟨s4, cfg4, tr4, rr4⟩, hm, h⟩ := exceptBind_ok h
  simp only [] at h
  obtain ⟨⟨shimBytes, s5⟩, hs, h⟩ := exceptBind_ok h
  simp only [] at h
  cases mode with
  | other =>
    simp [Bind.bind, Except.bind] at h
  | elf_exe =>
    obtain ⟨y, hy, h⟩ := exceptBind_ok h
    have hy' := (Except.ok.inj hy).symm
    subst hy'
    obtain ⟨ph, hp, h⟩ := exceptBind_ok h
    simp only [pure, Except.pure] at h
    have hres := (Except.ok.inj h).symm
    subst hres
    refine ⟨roundUpPage_mod _, rfl, roundUpPage_mod _, hp⟩
  | elf_dso =>
    obtain ⟨od, hod, h⟩ := exceptBind_ok h
    obtain ⟨y, hy, h⟩ := exceptBind_ok h
    have hy' := (Except.ok.inj hy).symm
    subst hy'
    obtain ⟨ph, hp, h⟩ := exceptBind_ok h
    simp only [pure, Except.pure] at h
    have hres := (Except.ok.inj h).symm
    subst hres
    refine ⟨roundUpPage_mod _, rfl, roundUpPage_mod _, hp⟩

/-- C7.  PHDR repurposing: an error is raised exactly when the selected
header is absent; a selected header is overwritten with exactly the
claimed fields (`PT_LOAD`, `PF_R|PF_X`, the config offset, the loader
base, zero physical address, file and memory sizes both equal to the
`config_size` argument, page alignment); selection honors an explicit
`PT_NOTE` / `PT_GNU_RELRO` / `PT_GNU_STACK` choice and otherwise prefers
`PT_NOTE`, then `PT_GNU_RELRO`, then `PT_GNU_STACK`; and on every
successful emission the repurposed header of the result is produced by
`phdrStep` at the pre-rounding config size `finalSize - config_offset`,
while the rounded size is stored in the config record. -/
theorem C7_phdr_repurposing :
    (∀ (choice : Nat) (info : ElfInfo) (co : Nat) (lbase : Int) (cs : Nat),
      (phdrStep choice info co lbase cs = .error .noInjectionSlot ↔
        selectPhdr choice info.phdr_note info.phdr_gnu_relro
          info.phdr_gnu_stack = none) ∧
      (∀ p, selectPhdr choice info.phdr_note info.phdr_gnu_relro
          info.phdr_gnu_stack = some p →
        phdrStep choice info co lbase cs =
          .ok { p_type := PT_LOAD, p_flags := PF_X ||| PF_R,
                p_offset := co, p_vaddr := lbase, p_paddr := 0,
                p_filesz := cs, p_memsz := cs, p_align := PAGE_SIZE })) ∧
    (∀ (note relro stack : Option Elf64_Phdr),
      selectPhdr PT_NOTE note relro stack = note ∧
      selectPhdr PT_GNU_RELRO note relro stack = relro ∧
      selectPhdr PT_GNU_STACK note relro stack = stack ∧
      (∀ choice, choice ≠ PT_NOTE → choice ≠ PT_GNU_RELRO →
        choice ≠ PT_GNU_STACK →
        selectPhdr choice note relro stack = note.or (relro.or stack))) ∧
    (∀ (O : AbsOracle) (gvb : MNode → List (Int × Int)) (opt : Options)
      (mode : Mode) (original data0 : Buf) (size0 ms : Nat)
      (Is : List Instr) (mappings : List Chain) (inits : List Int)
      (mh : Int) (info : ElfInfo) (blob : List Nat) (res : EmitResult),
      emitElf O gvb opt mode original data0 size0 ms Is mappings inits
        mh info blob = .ok res →
      phdrStep opt.loader_phdr info res.config_offset opt.loader_base
        (res.finalSize - res.config_offset) = .ok res.phdr ∧
      res.config.size = roundUpPage (res.finalSize - res.config_offset)) := by
  refine ⟨?_, ?_, ?_⟩
  · intro choice info co lbase cs
    constructor
    · unfold phdrStep
      cases hsel : selectPhdr choice info.phdr_note info.phdr_gnu_relro
          info.phdr_gnu_stack with
      | none => simp
      | some p => simp
    · intro p hsel
      unfold phdrStep
      rw [hsel]
      rfl
  · intro note relro stack
    refine ⟨rfl, ?_, ?_, ?_⟩
    · unfold selectPhdr
      rw [if_neg (by decide), if_pos rfl]
    · unfold selectPhdr
      rw [if_neg (by decide), if_neg (by decide), if_pos rfl]
    · intro choice h1 h2 h3
      unfold selectPhdr
      rw [if_neg h1, if_neg h2, if_neg h3]
      cases note with
      | some p => rfl
      | none =>
        cases relro with
        | some p => rfl
        | none => rfl
  · intro O gvb opt mode original data0 size0 ms Is mappings inits mh info
      blob res h
    obtain ⟨_, h2, _, h4⟩ := emitElf_ok_inv h
    exact ⟨h4, h2⟩

/-- C7, witness: with an explicit `PT_GNU_RELRO` choice and a present
`PT_GNU_RELRO` header, the header is overwritten with the exact claimed
field values. -/
theorem C7_phdr_repurposing_witness :
    phdrStep PT_GNU_RELRO ⟨0, none, none, some ⟨PT_GNU_RELRO, 4, 64, 0x600,
        0, 32, 32, 1⟩, none⟩ 4096 0x400000 97 =
      .ok { p_type := PT_LOAD, p_flags := PF_X ||| PF_R, p_offset := 4096,
            p_vaddr := 0x400000, p_paddr := 0, p_filesz := 97,
            p_memsz := 97, p_align := PAGE_SIZE } :=
  (C7_phdr_repurposing.1 PT_GNU_RELRO ⟨0, none, none, some ⟨PT_GNU_RELRO, 4,
      64, 0x600, 0, 32, 32, 1⟩, none⟩ 4096 0x400000 97).2
    ⟨PT_GNU_RELRO, 4, 64, 0x600, 0, 32, 32, 1⟩ (by rfl)

theorem emitBounds_congr (O : AbsOracle) (o0 : Int) {n n' : MNode}
    (hb : n'.base = n.base) (hp : n'.prot = n.prot) (bs : List (Int × Int))
    (st : MapPassSt) :
    emitBounds O o0 n' bs st = emitBounds O o0 n bs st := by
  induction bs generalizing st with
  | nil => rfl
  | cons b bs ih =>
    unfold emitBounds
    dsimp only
    rw [hb, hp]
    cases hm : emitLoaderMap O (n.base + b.1) (b.2 - b.1).toNat (o0 + b.1)
        (n.prot &&& PROT_READ != 0) (n.prot &&& PROT_WRITE != 0)
        (n.prot &&& PROT_EXEC != 0) (some st.ub) with
    | error e => rfl
    | ok v =>
      obtain ⟨sz, rec, ub1⟩ := v
      exact ih _

theorem foldlM_map_eq {α σ : Type} (f : α → α)
    (g : σ → α → Except E9Error σ) (hfg : ∀ s a, g s (f a) = g s a) :
    ∀ (l : List α) (s : σ), (l.map f).foldlM g s = l.foldlM g s := by
  intro l
  induction l with
  | nil => intro s; rfl
  | cons a l ih =>
    intro s
    rw [List.map_cons, List.foldlM_cons, List.foldlM_cons, hfg]
    cases g s a with
    | error e => rfl
    | ok s' => simp only [Except.bind, Bind.bind, ih]

/-- C10.  The mapping-array emission never reads a chain node's own
offset field: replacing the offset fields of all non-head chain nodes
leaves the emission unchanged (for any bounds oracle that does not
depend on the offset field), and on a concrete two-node chain whose tail
carries a decoy offset 8192, both emitted records take their file offset
from the chain head's offset 0 (stored offset field 0, not
8192 / PAGE_SIZE = 2) while each record's address field comes from the
node's own base. -/
theorem C10_chain_offset_from_head :
    (∀ (O : AbsOracle) (gvb : MNode → List (Int × Int)) (preload : Bool)
      (hd : MNode) (t : List MNode) (z : Int) (st : MapPassSt),
      (∀ n, gvb { n with moffset := z } = gvb n) →
      emitChainMaps O gvb preload
        (hd :: t.map (fun n => { n with moffset := z })) st =
      emitChainMaps O gvb preload (hd :: t) st) ∧
    (emitChainMaps sampleOracle gvbC10 true [hC10, nC10]
        ⟨4096, INTPTR_MIN, [], 0⟩ =
      .ok ⟨4120, 16384, [⟨1, 0, 1, true, false, true, false⟩,
        ⟨4, 0, 1, true, false, true, false⟩], 2⟩) ∧
    ((Int.tdiv nC10.moffset (PAGE_SIZE : Int)).toNat = 2 ∧ (0 : Nat) ≠ 2) := by
  refine ⟨?_, by rfl, by decide, by decide⟩
  intro O gvb preload hd t z st hg
  unfold emitChainMaps
  simp only
  rw [List.foldlM_cons, List.foldlM_cons]
  cases hstep : (if hd.preload != preload then Except.ok st
      else emitBounds O hd.moffset hd (gvb hd) st) with
  | error e => rfl
  | ok st' =>
    simp only [Except.bind, Bind.bind]
    refine foldlM_map_eq _ _ ?_ t st'
    intro s n
    rw [hg n]
    show (if (n.preload != preload) = true then Except.ok s
        else emitBounds O hd.moffset { n with moffset := z } (gvb n) s) =
      (if (n.preload != preload) = true then Except.ok s
        else emitBounds O hd.moffset n (gvb n) s)
    by_cases hpl : (n.preload != preload) = true
    · rw [if_pos hpl, if_pos hpl]
    · rw [if_neg hpl, if_neg hpl]
      exact @emitBounds_congr O hd.moffset n { n with moffset := z } rfl rfl
        (gvb n) s

/-- C10, witness: the invariance applied to the concrete chain, with the
tail's offset field replaced by the decoy value 999. -/
theorem C10_chain_offset_from_head_witness :
    emitChainMaps sampleOracle gvbC10 true
      ([nC10].map (fun n => { n with moffset := 999 }) |>.cons hC10)
      ⟨4096, INTPTR_MIN, [], 0⟩ =
    emitChainMaps sampleOracle gvbC10 true [hC10, nC10]
      ⟨4096, INTPTR_MIN, [], 0⟩ :=
  C10_chain_offset_from_head.1 sampleOracle gvbC10 true hC10 [nC10] 999
    ⟨4096, INTPTR_MIN, [], 0⟩ (fun _ => rfl)

/-- C9, counterexample.  A successful emission whose returned final
length, 4193, is not a multiple of `PAGE_SIZE`: only the `config->size`
field receives the page-rounded value, the returned cursor does not. -/
theorem C9_counterexample_final_size_unaligned :
    runC9.map EmitResult.finalSize = .ok 4193 ∧
    (4193 : Nat) % PAGE_SIZE ≠ 0 := by
  constructor
  · rfl
  · decide

/-- C9, amended.  On every successful emission the cursor is
page-aligned at the start of the config region (`config_offset` is a
multiple of `PAGE_SIZE`), and the page-rounded config size is recorded
in `config->size` (hence that field is a multiple of `PAGE_SIZE`); the
value `emitElf` returns is `config_offset` plus the unrounded config
size and need not itself be a multiple of `PAGE_SIZE`. -/
theorem C9_amended_alignment {O : AbsOracle}
    {gvb : MNode → List (Int × Int)} {opt : Options} {mode : Mode}
    {original data0 : Buf} {size0 ms : Nat} {Is : List Instr}
    {mappings : List Chain} {inits : List Int} {mh : Int} {info : ElfInfo}
    {blob : List Nat} {res : EmitResult}
    (h : emitElf O gvb opt mode original data0 size0 ms Is mappings inits
      mh info blob = .ok res) :
    res.config_offset % PAGE_SIZE = 0 ∧
    res.config.size = roundUpPage (res.finalSize - res.config_offset) ∧
    res.config.size % PAGE_SIZE = 0 := by
  obtain ⟨h1, h2, h3, _⟩ := emitElf_ok_inv h
  exact ⟨h1, h2, h3⟩

theorem ok_bind {α β : Type} (a : α) (f : α → Except E9Error β) :
    (Except.ok a >>= f) = f a := rfl

theorem refactorScanStep_clean {original data : Buf} {ms : Nat}
    {Is : List Instr} {st : ClusterState} {offset : Nat}
    (h : ∀ i < PAGE_SIZE, original (offset + i) = data (offset + i)) :
    refactorScanStep original data ms Is st offset = .ok st := by
  unfold refactorScanStep
  rw [if_pos (memEq_true_of_eq h)]

theorem refactorScanStep_dirty {original data : Buf} {ms : Nat}
    {Is : List Instr} {st : ClusterState} {offset : Nat} (i : Nat)
    {I : Instr} (hi : i < PAGE_SIZE)
    (hne : original (offset + i) ≠ data (offset + i))
    (hlb : lowerBound Is offset = some I)
    (hpo : I.offset - Int.emod I.offset (PAGE_SIZE : Int) = (offset : Int)) :
    refactorScanStep original data ms Is st offset =
      .ok (clusterStep ms st (I.addr - Int.emod I.addr (PAGE_SIZE : Int))
        (offset : Int)) := by
  unfold refactorScanStep
  rw [memEq_false_of_ne i hi hne]
  rw [if_neg (by simp)]
  rw [hlb]
  dsimp only
  rw [if_neg (not_not_intro hpo), hpo]

/-- C5, counterexample.  Two dirty pages at virtual addresses `A = 0`
and `A + mapping_size + PAGE_SIZE = 12288` (with `mapping_size = 8192`)
produce one refactor entry, not two: the second page satisfies the merge
condition with equality (`12288 ≤ 0 + 4096 + 8192`). -/
theorem C5_counterexample_one_entry_not_two :
    (findRefactors zbuf dataS1 16384 8192 IsS1).map List.length = .ok 1 ∧
    (1 : Nat) ≠ 2 := by
  have e0 : refactorScanStep zbuf dataS1 8192 IsS1 initialCluster
      (0 * PAGE_SIZE) = .ok ⟨0, 0, 4096, []⟩ := by
    rw [refactorScanStep_dirty 0 (by norm_num [PAGE_SIZE])
      (by norm_num [zbuf, dataS1, PAGE_SIZE])
      (rfl : lowerBound IsS1 (0 * PAGE_SIZE) = some ⟨0, 0⟩) (by decide)]
    exact congrArg Except.ok (by decide)
  have e1 : refactorScanStep zbuf dataS1 8192 IsS1 ⟨0, 0, 4096, []⟩
      (1 * PAGE_SIZE) = .ok ⟨0, 0, 4096, []⟩ := by
    refine refactorScanStep_clean ?_
    intro i hi
    have hi' : i < 4096 := by simpa [PAGE_SIZE] using hi
    show (0 : Nat) = dataS1 (1 * PAGE_SIZE + i)
    unfold dataS1
    rw [if_neg (by simp only [PAGE_SIZE]; omega)]
  have e2 : refactorScanStep zbuf dataS1 8192 IsS1 ⟨0, 0, 4096, []⟩
      (2 * PAGE_SIZE) = .ok ⟨0, 0, 4096, []⟩ := by
    refine refactorScanStep_clean ?_
    intro i hi
    have hi' : i < 4096 := by simpa [PAGE_SIZE] using hi
    show (0 : Nat) = dataS1 (2 * PAGE_SIZE + i)
    unfold dataS1
    rw [if_neg (by simp only [PAGE_SIZE]; omega)]
  have e3 : refactorScanStep zbuf dataS1 8192 IsS1 ⟨0, 0, 4096, []⟩
      (3 * PAGE_SIZE) = .ok ⟨0, 0, 16384, []⟩ := by
    rw [refactorScanStep_dirty 0 (by norm_num [PAGE_SIZE])
      (by norm_num [zbuf, dataS1, PAGE_SIZE])
      (rfl : lowerBound IsS1 (3 * PAGE_SIZE) = some ⟨12288, 12288⟩)
      (by decide)]
    exact congrArg Except.ok (by decide)
  have hA : findRefactors zbuf dataS1 16384 8192 IsS1 =
      .ok [⟨0, 16384, 0, 0⟩] := by
    unfold findRefactors
    rw [show List.range (16384 / PAGE_SIZE) = [0, 1, 2, 3] from rfl]
    simp only [List.foldlM_cons, List.foldlM_nil, e0, ok_bind, e1, e2, e3]
    rfl
  rw [hA]
  exact ⟨rfl, by decide⟩

/-- C5, amended.  The merge condition is as claimed: with a cluster open
(`curr_addr ≥ 0`), a dirty page merges into it exactly when
`curr_addr ≤ page_addr ≤ curr_addr + curr_size + mapping_size` (merging
sets the cluster size to `page_addr + PAGE_SIZE - curr_addr`); but since
a page at `A + mapping_size + PAGE_SIZE` meets the condition with
equality, dirty pages at `A` and `A + mapping_size + PAGE_SIZE` produce
ONE refactor entry of size `mapping_size + 2*PAGE_SIZE`, while pages at
`A` and `A + mapping_size - PAGE_SIZE` produce one entry of size
`mapping_size`, as claimed. -/
theorem C5_amended_clustering :
    (∀ (ms : Nat) (st : ClusterState) (pa po : Int), 0 ≤ st.currAddr →
      (clusterStep ms st pa po =
          { st with currSize := (pa + (PAGE_SIZE : Int) - st.currAddr).toNat }
        ↔ st.currAddr ≤ pa ∧
          pa ≤ st.currAddr + (st.currSize : Int) + (ms : Int))) ∧
    (findRefactors zbuf dataS1 16384 8192 IsS1 =
      .ok [⟨0, 8192 + 2 * 4096, 0, 0⟩]) ∧
    (findRefactors zbuf dataS2 8192 8192 IsS2 = .ok [⟨0, 8192, 0, 0⟩]) := by
  refine ⟨?_, ?_, ?_⟩
  · intro ms st pa po hopen
    unfold clusterStep
    by_cases hcond : st.currAddr < 0 ∨ pa < st.currAddr ∨
        st.currAddr + (st.currSize : Int) + (ms : Int) < pa
    · rw [if_pos hcond]
      constructor
      · intro heq
        exfalso
        have hr := congrArg ClusterState.refactors heq
        simp only at hr
        rw [if_pos hopen] at hr
        have := congrArg List.length hr
        simp at this
      · intro hmerge
        exfalso
        rcases hcond with h | h | h
        · omega
        · exact absurd hmerge.1 (not_le.mpr h)
        · exact absurd hmerge.2 (not_le.mpr h)
    · rw [if_neg hcond]
      push_neg at hcond
      exact ⟨fun _ => ⟨hcond.2.1, hcond.2.2⟩, fun _ => rfl⟩
  · have e0 : refactorScanStep zbuf dataS1 8192 IsS1 initialCluster
        (0 * PAGE_SIZE) = .ok ⟨0, 0, 4096, []⟩ := by
      rw [refactorScanStep_dirty 0 (by norm_num [PAGE_SIZE])
        (by norm_num [zbuf, dataS1, PAGE_SIZE])
        (rfl : lowerBound IsS1 (0 * PAGE_SIZE) = some ⟨0, 0⟩) (by decide)]
      exact congrArg Except.ok (by decide)
    have e1 : refactorScanStep zbuf dataS1 8192 IsS1 ⟨0, 0, 4096, []⟩
        (1 * PAGE_SIZE) = .ok ⟨0, 0, 4096, []⟩ := by
      refine refactorScanStep_clean ?_
      intro i hi
      have hi' : i < 4096 := by simpa [PAGE_SIZE] using hi
      show (0 : Nat) = dataS1 (1 * PAGE_SIZE + i)
      unfold dataS1
      rw [if_neg (by simp only [PAGE_SIZE]; omega)]
    have e2 : refactorScanStep zbuf dataS1 8192 IsS1 ⟨0, 0, 4096, []⟩
        (2 * PAGE_SIZE) = .ok ⟨0, 0, 4096, []⟩ := by
      refine refactorScanStep_clean ?_
      intro i hi
      have hi' : i < 4096 := by simpa [PAGE_SIZE] using hi
      show (0 : Nat) = dataS1 (2 * PAGE_SIZE + i)
      unfold dataS1
      rw [if_neg (by simp only [PAGE_SIZE]; omega)]
    have e3 : refactorScanStep zbuf dataS1 8192 IsS1 ⟨0, 0, 4096, []⟩
        (3 * PAGE_SIZE) = .ok ⟨0, 0, 16384, []⟩ := by
      rw [refactorScanStep_dirty 0 (by norm_num [PAGE_SIZE])
        (by norm_num [zbuf, dataS1, PAGE_SIZE])
        (rfl : lowerBound IsS1 (3 * PAGE_SIZE) = some ⟨12288, 12288⟩)
        (by decide)]
      exact congrArg Except.ok (by decide)
    unfold findRefactors
    rw [show List.range (16384 / PAGE_SIZE) = [0, 1, 2, 3] from rfl]
    simp only [List.foldlM_cons, List.foldlM_nil, e0, ok_bind, e1, e2, e3]
    rfl
  · have e0 : refactorScanStep zbuf dataS2 8192 IsS2 initialCluster
        (0 * PAGE_SIZE) = .ok ⟨0, 0, 4096, []⟩ := by
      rw [refactorScanStep_dirty 0 (by norm_num [PAGE_SIZE])
        (by norm_num [zbuf, dataS2, PAGE_SIZE])
        (rfl : lowerBound IsS2 (0 * PAGE_SIZE) = some ⟨0, 0⟩) (by decide)]
      exact congrArg Except.ok (by decide)
    have e1 : refactorScanStep zbuf dataS2 8192 IsS2 ⟨0, 0, 4096, []⟩
        (1 * PAGE_SIZE) = .ok ⟨0, 0, 8192, []⟩ := by
      rw [refactorScanStep_dirty 0 (by norm_num [PAGE_SIZE])
        (by norm_num [zbuf, dataS2, PAGE_SIZE])
        (rfl : lowerBound IsS2 (1 * PAGE_SIZE) = some ⟨4096, 4096⟩)
        (by decide)]
      exact congrArg Except.ok (by decide)
    unfold findRefactors
    rw [show List.range (8192 / PAGE_SIZE) = [0, 1] from rfl]
    simp only [List.foldlM_cons, List.foldlM_nil, e0, ok_bind, e1]
    rfl

/-- C5, witness for the merge-condition characterization: the open
cluster at address 0 of size one page absorbs the dirty page at 12288
(equality case of the bound `0 + 4096 + 8192`), growing to 16384. -/
theorem C5_amended_clustering_witness :
    clusterStep 8192 ⟨0, 0, 4096, []⟩ 12288 12288 =
      { currAddr := 0, currOffset := 0,
        currSize := ((12288 : Int) + (PAGE_SIZE : Int) - 0).toNat,
        refactors := [] } :=
  (C5_amended_clustering.1 8192 ⟨0, 0, 4096, []⟩ 12288 12288
    (by norm_num)).mpr (by constructor <;> norm_num)

theorem emitLoaderMap_ok_ub {O : AbsOracle} {addr0 : Int} {len0 : Nat}
    {offset0 : Int} {r w x : Bool} {u : Int} {sz : Nat} {rec : e9_map_s}
    {ub1 : Option Int}
    (h : emitLoaderMap O addr0 len0 offset0 r w x (some u) =
      .ok (sz, rec, ub1)) :
    ub1 = some (if O.isAbsolute addr0 then u else max u addr0) := by
  unfold emitLoaderMap at h
  dsimp only at h
  split at h
  · cases h
  · split at h
    · cases h
    · split at h
      · cases h
      · have h3 := congrArg (fun t : Nat × e9_map_s × Option Int => t.2.2)
          (Except.ok.inj h)
        dsimp only at h3
        rw [← h3]
        cases habs : O.isAbsolute addr0 <;> simp [habs]

theorem emitBounds_ub {O : AbsOracle} {o0 : Int} {n : MNode}
    {bs : List (Int × Int)} {st st' : MapPassSt}
    (h : emitBounds O o0 n bs st = .ok st') :
    st.ub ≤ st'.ub ∧
    ∀ b ∈ bs, O.isAbsolute (n.base + b.1) = false →
      n.base + b.1 ≤ st'.ub := by
  induction bs generalizing st with
  | nil =>
    have he : st = st' := Except.ok.inj h
    subst he
    exact ⟨le_refl _, by simp⟩
  | cons b bs ih =>
    unfold emitBounds at h
    dsimp only at h
    cases hm : emitLoaderMap O (n.base + b.1) (b.2 - b.1).toNat (o0 + b.1)
        (n.prot &&& PROT_READ != 0) (n.prot &&& PROT_WRITE != 0)
        (n.prot &&& PROT_EXEC != 0) (some st.ub) with
    | error e => rw [hm] at h; cases h
    | ok v =>
      rw [hm] at h
      obtain ⟨sz, rec, ub1⟩ := v
      dsimp only at h
      have hub := emitLoaderMap_ok_ub hm
      obtain ⟨h1, h2⟩ := ih h
      have hint : st.ub ≤ (ub1.getD st.ub) := by
        rw [hub]
        cases habs : O.isAbsolute (n.base + b.1) <;> simp [habs]
      constructor
      · exact le_trans hint (by simpa using h1)
      · intro b' hb' hnabs
        rcases List.mem_cons.mp hb' with hb1 | hb2
        · subst hb1
          have : n.base + b'.1 ≤ ub1.getD st.ub := by
            rw [hub, hnabs]
            simp
          exact le_trans this (by simpa using h1)
        · exact h2 b' hb2 hnabs

theorem chainFold_ub {O : AbsOracle} {gvb : MNode → List (Int × Int)}
    {preload : Bool} {o0 : Int} :
    ∀ (l : List MNode) (st st' : MapPassSt),
      l.foldlM (fun st n => if n.preload != preload then Except.ok st
        else emitBounds O o0 n (gvb n) st) st = .ok st' →
      st.ub ≤ st'.ub ∧
      ∀ n ∈ l, n.preload = preload →
        ∀ b ∈ gvb n, O.isAbsolute (n.base + b.1) = false →
          n.base + b.1 ≤ st'.ub := by
  intro l
  induction l with
  | nil =>
    intro st st' h
    have he : st = st' := Except.ok.inj h
    subst he
    exact ⟨le_refl _, by simp⟩
  | cons a l ih =>
    intro st st' h
    rw [List.foldlM_cons] at h
    obtain ⟨st₁, h1, h2⟩ := exceptBind_ok h
    obtain ⟨hmono, hall⟩ := ih st₁ st' h2
    by_cases hp : (a.preload != preload) = true
    · rw [if_pos hp] at h1
      have he : st = st₁ := Except.ok.inj h1
      subst he
      refine ⟨hmono, ?_⟩
      intro n hn hnp b hb hnabs
      rcases List.mem_cons.mp hn with hn1 | hn2
      · subst hn1
        exact absurd hnp (by simpa using hp)
      · exact hall n hn2 hnp b hb hnabs
    · rw [if_neg hp] at h1
      obtain ⟨hm1, hb1⟩ := emitBounds_ub h1
      refine ⟨le_trans hm1 hmono, ?_⟩
      intro n hn hnp b hb hnabs
      rcases List.mem_cons.mp hn with hn1 | hn2
      · subst hn1
        exact le_trans (hb1 b hb hnabs) hmono
      · exact hall n hn2 hnp b hb hnabs

theorem emitChainMaps_ub {O : AbsOracle} {gvb : MNode → List (Int × Int)}
    {preload : Bool} {chain : Chain} {st st' : MapPassSt}
    (h : emitChainMaps O gvb preload chain st = .ok st') :
    st.ub ≤ st'.ub ∧
    ∀ n ∈ chain, n.preload = preload →
      ∀ b ∈ gvb n, O.isAbsolute (n.base + b.1) = false →
        n.base + b.1 ≤ st'.ub := by
  cases chain with
  | nil =>
    have he : st = st' := Except.ok.inj h
    subst he
    exact ⟨le_refl _, by simp⟩
  | cons hd t =>
    exact chainFold_ub (hd :: t) st st' h

theorem emitMapPass_ub {O : AbsOracle} {gvb : MNode → List (Int × Int)}
    {preload : Bool} :
    ∀ (mappings : List Chain) (st st' : MapPassSt),
      emitMapPass O gvb preload mappings st = .ok st' →
      st.ub ≤ st'.ub ∧
      ∀ chain ∈ mappings, ∀ n ∈ chain, n.preload = preload →
        ∀ b ∈ gvb n, O.isAbsolute (n.base + b.1) = false →
          n.base + b.1 ≤ st'.ub := by
  intro mappings
  induction mappings with
  | nil =>
    intro st st' h
    have he : st = st' := Except.ok.inj h
    subst he
    exact ⟨le_refl _, by simp⟩
  | cons c cs ih =>
    intro st st' h
    unfold emitMapPass at h
    rw [List.foldlM_cons] at h
    obtain ⟨st₁, h1, h2⟩ := exceptBind_ok h
    obtain ⟨hm1, hall1⟩ := emitChainMaps_ub h1
    obtain ⟨hm2, hall2⟩ := ih st₁ st' h2
    refine ⟨le_trans hm1 hm2, ?_⟩
    intro chain hc n hn hnp b hb hnabs
    rcases List.mem_cons.mp hc with hc1 | hc2
    · subst hc1
      exact le_trans (hall1 n hn hnp b hb hnabs) hm2
    · exact hall2 chain hc2 n hn hnp b hb hnabs

/-- C2, amended.  The `ub` guard covers exactly the trampoline mapping
arrays: whenever the mapping-array section of `emitElf` (lines 338-395)
succeeds, every virtual-bounds sub-range of every chain node whose base
address is non-absolute lies at or below the loader base option.  The
refactor mappings are emitted after the guard with a null `ub` pointer
and are not covered (see the counterexample). -/
theorem C2_amended_ub_guard_trampolines {O : AbsOracle}
    {gvb : MNode → List (Int × Int)} {lbase : Int} {co : Nat}
    {mappings : List Chain} {refactors : List Refactor} {size : Nat}
    {config : e9_config_s}
    {out : Nat × e9_config_s × List e9_map_s × List e9_map_s}
    (h : emitMapsSection O gvb lbase co mappings refactors size config =
      .ok out) :
    ∀ chain ∈ mappings, ∀ n ∈ chain, ∀ b ∈ gvb n,
      O.isAbsolute (n.base + b.1) = false → n.base + b.1 ≤ lbase := by
  unfold emitMapsSection at h
  obtain ⟨st1, h1, h⟩ := exceptBind_ok h
  obtain ⟨st2, h2, h⟩ := exceptBind_ok h
  by_cases hg : st2.ub > lbase
  · rw [if_pos hg] at h
    cases h
  · have hg' : st2.ub ≤ lbase := not_lt.mp hg
    intro chain hc n hn b hb hnabs
    obtain ⟨hmono2, hall2⟩ := emitMapPass_ub mappings _ _ h2
    cases hp : n.preload with
    | true =>
      obtain ⟨_, hall1⟩ := emitMapPass_ub mappings _ _ h1
      have hle := hall1 chain hc n hn hp b hb hnabs
      exact le_trans hle (le_trans (by simpa using hmono2) hg')
    | false =>
      have hle := hall2 chain hc n hn hp b hb hnabs
      exact le_trans hle hg'

/-- C2, witness for the amended theorem: a successful section run with
one non-absolute trampoline node at base `0x300000` shows the guarded
bound against the loader base `0x400000`. -/
theorem C2_amended_ub_guard_trampolines_witness :
    ((⟨0x300000, 4096, 0, 5, true⟩ : MNode)).base + (0 : Int) ≤ 0x400000 :=
  C2_amended_ub_guard_trampolines
    (by rfl : emitMapsSection sampleOracle gvbC10 0x400000 8192 [chainW] []
      8272 zeroConfig = .ok outW)
    chainW (by simp [chainW]) ⟨0x300000, 4096, 0, 5, true⟩
    (by simp [chainW]) (0, 4096) (by simp [gvbC10]) (by rfl)

/-- C2, counterexample.  A successful emission (no `LoaderBaseTooLow`)
whose refactor record in the postload array has the non-absolute base
`0x800000 = 2048 * PAGE_SIZE`, strictly above the loader base option
`0x400000`: the refactor mappings are emitted after the `ub` guard with
a null `ub` pointer and are not covered by it. -/
theorem C2_counterexample_refactor_above_base :
    emitElf sampleOracle (fun _ => []) optC2 .elf_exe zbuf dataC2 4096 4096
      IsC2 [] [] INTPTR_MIN infoExeSample [7] = .ok resC2 ∧
    resC2.refactorRecs = [⟨2048, 1, 1, true, false, true, false⟩] ∧
    (2048 : Int) * (PAGE_SIZE : Int) > optC2.loader_base := by
  have hscan : findRefactors zbuf dataC2 4096 4096 IsC2 =
      .ok [⟨8388608, 4096, 0, 0⟩] := by
    have e0 : refactorScanStep zbuf dataC2 4096 IsC2 initialCluster
        (0 * PAGE_SIZE) = .ok ⟨8388608, 0, 4096, []⟩ := by
      rw [refactorScanStep_dirty 0 (by norm_num [PAGE_SIZE])
        (by norm_num [zbuf, dataC2])
        (rfl : lowerBound IsC2 (0 * PAGE_SIZE) = some ⟨8388608, 0⟩)
        (by decide)]
      exact congrArg Except.ok (by decide)
    unfold findRefactors
    rw [show List.range (4096 / PAGE_SIZE) = [0] from rfl]
    simp only [List.foldlM_cons, List.foldlM_nil, e0, ok_bind]
    rfl
  have hrp : emitRefactoredPatch optC2.loader_static zbuf dataC2
      (roundUpPage 4096) 4096 IsC2 =
      .ok ((writeRefactors zbuf dataC2 4096 [⟨8388608, 4096, 0, 0⟩]).1,
        [⟨8388608, 4096, 0, 4096⟩], 4096) := by
    show emitRefactoredPatch false zbuf dataC2 4096 4096 IsC2 = _
    unfold emitRefactoredPatch
    rw [if_neg (by simp), if_neg (by norm_num [PAGE_SIZE])]
    rw [hscan]
    rfl
  refine ⟨?_, rfl, by norm_num [PAGE_SIZE, optC2]⟩
  unfold emitElf
  dsimp only
  rw [hrp, ok_bind]
  rfl

theorem writeRefactors_frame (original : Buf) :
    ∀ (rs : List Refactor) (data : Buf) (size0 j : Nat), j < size0 →
      (∀ r ∈ rs, j < r.originalOffset.toNat ∨
        r.originalOffset.toNat + r.size ≤ j) →
      (writeRefactors original data size0 rs).1 j = data j := by
  intro rs
  induction rs with
  | nil => intro data size0 j hj hout; rfl
  | cons r rs ih =>
    intro data size0 j hj hout
    have hunf : writeRefactors original data size0 (r :: rs) =
        ((writeRefactors original
            (memcpyFrom (memcpyFrom data data size0 r.originalOffset.toNat
                r.size) original r.originalOffset.toNat
              r.originalOffset.toNat r.size)
            (size0 + r.size) rs).1,
          (writeRefactors original
            (memcpyFrom (memcpyFrom data data size0 r.originalOffset.toNat
                r.size) original r.originalOffset.toNat
              r.originalOffset.toNat r.size)
            (size0 + r.size) rs).2.1,
          { r with patchedOffset := (size0 : Int) } ::
            (writeRefactors original
              (memcpyFrom (memcpyFrom data data size0 r.originalOffset.toNat
                  r.size) original r.originalOffset.toNat
                r.originalOffset.toNat r.size)
              (size0 + r.size) rs).2.2) := rfl
    rw [hunf]
    have hr := hout r (List.mem_cons_self r rs)
    have h1 := ih (memcpyFrom (memcpyFrom data data size0
        r.originalOffset.toNat r.size) original r.originalOffset.toNat
        r.originalOffset.toNat r.size) (size0 + r.size) j (by omega)
      (fun x hx => hout x (List.mem_cons_of_mem r hx))
    rw [h1]
    unfold memcpyFrom
    rw [if_neg (by omega), if_neg (by omega)]

/-- C4.  Step #2 of `emitRefactoredPatch` on a refactor list whose
original ranges lie inside the file and are ordered and disjoint (as the
planner produces them): the logical size grows by exactly the sum of the
refactor sizes; each refactor keeps its address, size and original
offset and receives as patched offset the logical file size at the
moment it is processed (the initial size plus the sizes of the earlier
refactors); afterwards the bytes over each original range equal the
original input bytes, and the bytes at each patched offset equal the
patched bytes that were at the original range before restoration. -/
theorem C4_writeRefactors_round_trip (original : Buf) :
    ∀ (rs : List Refactor) (data : Buf) (size0 : Nat),
      (∀ r ∈ rs, 0 ≤ r.originalOffset ∧
        r.originalOffset.toNat + r.size ≤ size0) →
      rs.Pairwise (fun a b =>
        a.originalOffset.toNat + a.size ≤ b.originalOffset.toNat) →
      (writeRefactors original data size0 rs).2.1 =
          size0 + (rs.map Refactor.size).sum ∧
      (writeRefactors original data size0 rs).2.2.length = rs.length ∧
      ∀ k, k < rs.length →
        ((writeRefactors original data size0 rs).2.2.getD k
            ⟨0, 0, 0, 0⟩).addr = (rs.getD k ⟨0, 0, 0, 0⟩).addr ∧
        ((writeRefactors original data size0 rs).2.2.getD k
            ⟨0, 0, 0, 0⟩).size = (rs.getD k ⟨0, 0, 0, 0⟩).size ∧
        ((writeRefactors original data size0 rs).2.2.getD k
            ⟨0, 0, 0, 0⟩).originalOffset =
          (rs.getD k ⟨0, 0, 0, 0⟩).originalOffset ∧
        ((writeRefactors original data size0 rs).2.2.getD k
            ⟨0, 0, 0, 0⟩).patchedOffset =
          ((size0 + ((rs.take k).map Refactor.size).sum : Nat) : Int) ∧
        ∀ i < (rs.getD k ⟨0, 0, 0, 0⟩).size,
          (writeRefactors original data size0 rs).1
              ((rs.getD k ⟨0, 0, 0, 0⟩).originalOffset.toNat + i) =
            original ((rs.getD k ⟨0, 0, 0, 0⟩).originalOffset.toNat + i) ∧
          (writeRefactors original data size0 rs).1
              (size0 + ((rs.take k).map Refactor.size).sum + i) =
            data ((rs.getD k ⟨0, 0, 0, 0⟩).originalOffset.toNat + i) := by
  intro rs
  induction rs with
  | nil =>
    intro data size0 hin hdisj
    refine ⟨by simp [writeRefactors], by simp [writeRefactors], ?_⟩
    intro k hk
    exact absurd hk (by simp)
  | cons r rs ih =>
    intro data size0 hin hdisj
    have hinr := hin r (List.mem_cons_self r rs)
    have hint : ∀ x ∈ rs, 0 ≤ x.originalOffset ∧
        x.originalOffset.toNat + x.size ≤ size0 + r.size :=
      fun x hx => ⟨(hin x (List.mem_cons_of_mem r hx)).1,
        le_trans (hin x (List.mem_cons_of_mem r hx)).2
          (Nat.le_add_right _ _)⟩
    rcases List.pairwise_cons.mp hdisj with ⟨hhead, htail⟩
    have hunf : writeRefactors original data size0 (r :: rs) =
        ((writeRefactors original
            (memcpyFrom (memcpyFrom data data size0 r.originalOffset.toNat
                r.size) original r.originalOffset.toNat
              r.originalOffset.toNat r.size)
            (size0 + r.size) rs).1,
          (writeRefactors original
            (memcpyFrom (memcpyFrom data data size0 r.originalOffset.toNat
                r.size) original r.originalOffset.toNat
              r.originalOffset.toNat r.size)
            (size0 + r.size) rs).2.1,
          { r with patchedOffset := (size0 : Int) } ::
            (writeRefactors original
              (memcpyFrom (memcpyFrom data data size0 r.originalOffset.toNat
                  r.size) original r.originalOffset.toNat
                r.originalOffset.toNat r.size)
              (size0 + r.size) rs).2.2) := rfl
    obtain ⟨ih1, ih2, ih3⟩ := ih
      (memcpyFrom (memcpyFrom data data size0 r.originalOffset.toNat
          r.size) original r.originalOffset.toNat r.originalOffset.toNat
        r.size)
      (size0 + r.size) hint htail
    rw [hunf]
    refine ⟨by simp only [List.map_cons, List.sum_cons]; omega,
      by simp [ih2], ?_⟩
    intro k hk
    cases k with
    | zero =>
      simp only [List.getD_cons_zero, List.take_zero, List.map_nil,
        List.sum_nil, Nat.add_zero]
      refine ⟨trivial, trivial, trivial, by norm_num, ?_⟩
      intro i hi
      constructor
      · have hfr := writeRefactors_frame original rs
          (memcpyFrom (memcpyFrom data data size0 r.originalOffset.toNat
              r.size) original r.originalOffset.toNat
            r.originalOffset.toNat r.size)
          (size0 + r.size) (r.originalOffset.toNat + i) (by omega)
          (fun x hx => Or.inl (by
            have := hhead x hx
            omega))
        rw [hfr]
        unfold memcpyFrom
        rw [if_pos (by omega)]
        congr 1
        omega
      · have hfr := writeRefactors_frame original rs
          (memcpyFrom (memcpyFrom data data size0 r.originalOffset.toNat
              r.size) original r.originalOffset.toNat
            r.originalOffset.toNat r.size)
          (size0 + r.size) (size0 + i) (by omega)
          (fun x hx => Or.inr (by
            have := (hint x hx).2
            have := (hin x (List.mem_cons_of_mem r hx)).2
            omega))
        rw [hfr]
        unfold memcpyFrom
        rw [if_neg (by omega), if_pos (by omega)]
        congr 1
        omega
    | succ k' =>
      have hk' : k' < rs.length := by simpa using hk
      obtain ⟨j1, j2, j3, j4, j5⟩ := ih3 k' hk'
      simp only [List.getD_cons_succ, List.take_succ_cons, List.map_cons,
        List.sum_cons]
      refine ⟨j1, j2, j3, ?_, ?_⟩
      · rw [j4]
        congr 1
        omega
      · intro i hi
        obtain ⟨p1, p2⟩ := j5 i hi
        refine ⟨p1, ?_⟩
        rw [show size0 + (r.size + ((rs.take k').map Refactor.size).sum) + i
            = size0 + r.size + ((rs.take k').map Refactor.size).sum + i
          from by omega]
        rw [p2]
        unfold memcpyFrom
        have hmem : rs.getD k' ⟨0, 0, 0, 0⟩ ∈ rs := by
          rw [List.getD_eq_getElem rs ⟨0, 0, 0, 0⟩ hk']
          exact List.getElem_mem hk'
        have hx := hin (rs.getD k' ⟨0, 0, 0, 0⟩)
          (List.mem_cons_of_mem r hmem)
        have hh := hhead (rs.getD k' ⟨0, 0, 0, 0⟩) hmem
        rw [if_neg (by omega), if_neg (by omega)]

/-- C4, witness: over a two-byte file with two one-byte refactors, the
size grows by 2, offset 1 is restored to the original byte, and the
second refactor's patched copy at offset 3 holds the patched byte that
was at offset 1. -/
theorem C4_writeRefactors_round_trip_witness :
    (writeRefactors origW4 dataW4 2 rsW4).2.1 =
        2 + (rsW4.map Refactor.size).sum ∧
    (writeRefactors origW4 dataW4 2 rsW4).1 1 = origW4 1 ∧
    (writeRefactors origW4 dataW4 2 rsW4).1 (2 + 1 + 0) = dataW4 1 := by
  have h := C4_writeRefactors_round_trip origW4 rsW4 dataW4 2
    (by intro r hr; simp only [rsW4, List.mem_cons] at hr
        rcases hr with h1 | h1 | h1 <;> first | (subst h1; constructor <;> decide) | cases h1)
    (by simp only [rsW4, List.pairwise_cons]
        refine ⟨?_, ?_, ?_⟩ <;> simp_all)
  have h5 := ((h.2.2 1 (by norm_num [rsW4])).2.2.2.2) 0
    (by norm_num [rsW4])
  exact ⟨h.1, by simpa [rsW4] using h5.1, by simpa [rsW4] using h5.2⟩

/-- C9, witness for the amended theorem, at the concrete C9 run. -/
theorem C9_amended_alignment_witness :
    resC9.config_offset % PAGE_SIZE = 0 ∧
    resC9.config.size = roundUpPage (resC9.finalSize - resC9.config_offset) ∧
    resC9.config.size % PAGE_SIZE = 0 :=
  @C9_amended_alignment sampleOracle (fun _ => []) optStatic .elf_exe zbuf
    zbuf 4096 4096 [] [] [] INTPTR_MIN infoExeSample [7] resC9 (by rfl)

end E9
